import Mathlib

/-!
Verification of the snowflake-to-bigquery sync pipelines.

This file gives a shallow embedding, as Lean functions over lists, of the
batch extraction loops, staging loaders, MERGE / REPLACE reconcilers and
orchestrators of the repository, and proves (or refutes) the testable
properties stated in the specification.

Embedded source locations:
* `snowflake_bq_unified_pipeline/src/core/pipeline_base.py`
  (`fetch_batch`, `run_full_sync`, `run_incremental_sync`, `_merge_batch`,
   `_replace_table`, `_deduplicate_table`, `convert_row_to_dict`)
* `snowflake_bq_unified_pipeline/src/core/credentials_manager.py`
  (`SnowflakeConnectionPool.get_connection`)
* `work_item_details_pipeline/work_item_details_sync_daily/main.py`
  (`sync_daily_incremental`)
* `work_item_budget_vs_actual_pipeline/work_item_budget_vs_actual_sync_daily/main.py`
  (`sync_daily_incremental`)
* `pipeline_fallback_monitor.py` (`check_data_freshness`, `run_monitoring`)

Tables are lists of rows; a Snowflake source is a list ordered by the stable
ORDER BY key of the extraction query.  Loops are embedded with explicit fuel
(every loop in the source advances its offset by at least one per non-empty
batch, so fuel `source.length + 1` is always sufficient; sufficiency is part
of the termination lemmas below).
-/

namespace SnowflakeBQ

/-! ## Batch extraction

`fetch_batch` in `pipeline_base.py` runs
`SELECT * ... ORDER BY key LIMIT limit OFFSET offset`; on a source whose
rows are listed in the stable ORDER BY order this returns the sub-list
starting at `offset` of length at most `limit`. -/

def fetchBatch {α : Type} (source : List α) (offset limit : Nat) : List α :=
  (source.drop offset).take limit

/-- One extraction loop of `run_full_sync` / `run_incremental_sync`
(`pipeline_base.py`): fetch at `offset`, stop on an empty batch, otherwise
recurse with `offset += len(rows)` (the number of rows actually returned). -/
def syncBatchesAux {α : Type} (source : List α) (B : Nat) : Nat → Nat → List (List α)
  | 0, _ => []
  | fuel + 1, offset =>
    match fetchBatch source offset B with
    | [] => []
    | r :: rs => (r :: rs) :: syncBatchesAux source B fuel (offset + (r :: rs).length)

def syncBatches {α : Type} (source : List α) (B offset : Nat) : List (List α) :=
  syncBatchesAux source B (source.length + 1) offset

/-- The extraction loop of `work_item_details_sync_daily/main.py` (and of
`work_item_budget_vs_actual_sync_daily/main.py`): identical fetch and stop
condition, but the loop ends with `offset += batch_size` — the requested
batch size, not the number of rows returned. -/
def syncBatchesFixedAux {α : Type} (source : List α) (B : Nat) : Nat → Nat → List (List α)
  | 0, _ => []
  | fuel + 1, offset =>
    match fetchBatch source offset B with
    | [] => []
    | r :: rs => (r :: rs) :: syncBatchesFixedAux source B fuel (offset + B)

def syncBatchesFixed {α : Type} (source : List α) (B offset : Nat) : List (List α) :=
  syncBatchesFixedAux source B (source.length + 1) offset

/-- Final-offset observer for the `pipeline_base.py` loop: the pairs
`(offset, rows returned)` of non-empty fetches together with the offset at
which the terminating empty fetch was issued. -/
def syncScanAux {α : Type} (source : List α) (B : Nat) : Nat → Nat → List (Nat × Nat) × Nat
  | 0, offset => ([], offset)
  | fuel + 1, offset =>
    match fetchBatch source offset B with
    | [] => ([], offset)
    | r :: rs =>
      let rest := syncScanAux source B fuel (offset + (r :: rs).length)
      ((offset, (r :: rs).length) :: rest.1, rest.2)

def syncScan {α : Type} (source : List α) (B offset : Nat) : List (Nat × Nat) × Nat :=
  syncScanAux source B (source.length + 1) offset

/-- Final-offset observer for the `work_item_details` loop
(`offset += batch_size`). -/
def syncScanFixedAux {α : Type} (source : List α) (B : Nat) : Nat → Nat → List (Nat × Nat) × Nat
  | 0, offset => ([], offset)
  | fuel + 1, offset =>
    match fetchBatch source offset B with
    | [] => ([], offset)
    | r :: rs =>
      let rest := syncScanFixedAux source B fuel (offset + B)
      ((offset, (r :: rs).length) :: rest.1, rest.2)

def syncScanFixed {α : Type} (source : List α) (B offset : Nat) : List (Nat × Nat) × Nat :=
  syncScanFixedAux source B (source.length + 1) offset

/-! ### Lemmas about the extraction loops -/

theorem fetchBatch_eq_nil {α : Type} {source : List α} {offset B : Nat} (hB : 0 < B) :
    fetchBatch source offset B = [] ↔ source.length ≤ offset := by
  unfold fetchBatch
  constructor
  · intro h
    rcases List.take_eq_nil_iff.mp h with h' | h'
    · omega
    · have := List.drop_eq_nil_iff.mp h'
      omega
  · intro h
    have : source.drop offset = [] := List.drop_eq_nil_of_le h
    simp [this]

theorem fetchBatch_length {α : Type} (source : List α) (offset B : Nat) :
    (fetchBatch source offset B).length = min B (source.length - offset) := by
  simp [fetchBatch]

theorem syncBatchesAux_of_le {α : Type} (source : List α) (B fuel offset : Nat)
    (h : source.length ≤ offset) : syncBatchesAux source B fuel offset = [] := by
  cases fuel with
  | zero => rfl
  | succ n =>
    have hnil : source.drop offset = [] := List.drop_eq_nil_of_le h
    simp [syncBatchesAux, fetchBatch, hnil]

theorem syncBatchesFixedAux_of_le {α : Type} (source : List α) (B fuel offset : Nat)
    (h : source.length ≤ offset) : syncBatchesFixedAux source B fuel offset = [] := by
  cases fuel with
  | zero => rfl
  | succ n =>
    have hnil : source.drop offset = [] := List.drop_eq_nil_of_le h
    simp [syncBatchesFixedAux, fetchBatch, hnil]

/-- With enough fuel and a positive batch size, the concatenation of all
fetched batches is exactly the source suffix starting at the loop's initial
offset: nothing is skipped and nothing is fetched twice. -/
theorem syncBatchesAux_join {α : Type} (source : List α) (B : Nat) (hB : 0 < B) :
    ∀ fuel offset, source.length - offset < fuel →
      (syncBatchesAux source B fuel offset).flatten = source.drop offset := by
  intro fuel
  induction fuel with
  | zero => intro offset h; omega
  | succ n ih =>
    intro offset h
    rcases hcase : fetchBatch source offset B with _ | ⟨r, rs⟩
    · have hle : source.length ≤ offset := (fetchBatch_eq_nil hB).mp hcase
      have : source.drop offset = [] := List.drop_eq_nil_of_le hle
      simp [syncBatchesAux, hcase, this]
    · have hlen : (r :: rs).length = min B (source.length - offset) := by
        rw [← hcase]; exact fetchBatch_length source offset B
      have hpos : offset < source.length := by
        by_contra hc
        push_neg at hc
        rw [(fetchBatch_eq_nil hB).mpr hc] at hcase
        exact List.noConfusion hcase
      have hrec : (syncBatchesAux source B n (offset + (r :: rs).length)).flatten =
          source.drop (offset + (r :: rs).length) := by
        apply ih
        have : 1 ≤ (r :: rs).length := by simp
        omega
      simp only [syncBatchesAux, hcase, List.flatten_cons, hrec]
      have hdd : source.drop (offset + (r :: rs).length) =
          (source.drop offset).drop (r :: rs).length := by
        rw [List.drop_drop]
      rw [hdd, ← hcase]
      unfold fetchBatch
      have : ((source.drop offset).take B).length = min B (source.drop offset).length := by
        simp
      rw [this]
      rcases le_or_lt B (source.drop offset).length with hle | hlt
      · rw [min_eq_left hle, List.take_append_drop]
      · rw [min_eq_right (le_of_lt hlt)]
        simp [List.drop_eq_nil_of_le, List.take_of_length_le (le_of_lt hlt)]

theorem syncBatches_flatten {α : Type} (source : List α) (B : Nat) (hB : 0 < B) :
    (syncBatches source B 0).flatten = source := by
  have := syncBatchesAux_join source B hB (source.length + 1) 0 (by omega)
  simpa [syncBatches] using this

theorem ceil_div_step (B x : Nat) (hB : 0 < B) (hx : 0 < x) :
    (x + B - 1) / B = (x - min B x + B - 1) / B + 1 := by
  rcases le_or_lt x B with h | h
  · have hmin : min B x = x := min_eq_right h
    have h1 : x + B - 1 = x - 1 + B := by omega
    have h2 : x - min B x + B - 1 = B - 1 := by omega
    rw [h1, h2, Nat.add_div_right _ hB, Nat.div_eq_of_lt (by omega),
      Nat.div_eq_of_lt (by omega)]
  · have hmin : min B x = B := min_eq_left (le_of_lt h)
    have h1 : x + B - 1 = x - 1 + B := by omega
    have h2 : x - min B x + B - 1 = x - 1 := by omega
    rw [h1, h2, Nat.add_div_right _ hB]

/-- With enough fuel, the loop issues exactly `ceil((N - offset)/B)` non-empty
batches. -/
theorem syncBatchesAux_length {α : Type} (source : List α) (B : Nat) (hB : 0 < B) :
    ∀ fuel offset, source.length - offset < fuel →
      (syncBatchesAux source B fuel offset).length =
        (source.length - offset + B - 1) / B := by
  intro fuel
  induction fuel with
  | zero => intro offset h; omega
  | succ n ih =>
    intro offset h
    rcases hcase : fetchBatch source offset B with _ | ⟨r, rs⟩
    · have hle : source.length ≤ offset := (fetchBatch_eq_nil hB).mp hcase
      have hz : source.length - offset = 0 := by omega
      simp [syncBatchesAux, hcase, hz, Nat.div_eq_of_lt (by omega : B - 1 < B)]
    · have hlen : (r :: rs).length = min B (source.length - offset) := by
        rw [← hcase]; exact fetchBatch_length source offset B
      have hpos : offset < source.length := by
        by_contra hc
        push_neg at hc
        rw [(fetchBatch_eq_nil hB).mpr hc] at hcase
        exact List.noConfusion hcase
      have hrec := ih (offset + (r :: rs).length) (by
        have : 1 ≤ (r :: rs).length := by simp
        omega)
      have hstep : (syncBatchesAux source B (n + 1) offset).length =
          (syncBatchesAux source B n (offset + (r :: rs).length)).length + 1 := by
        simp [syncBatchesAux, hcase]
      have hsub : source.length - (offset + (r :: rs).length) =
          source.length - offset - min B (source.length - offset) := by omega
      rw [hstep, hrec, hsub]
      exact (ceil_div_step B (source.length - offset) hB (by omega)).symm

theorem syncBatches_length {α : Type} (source : List α) (B : Nat) (hB : 0 < B) :
    (syncBatches source B 0).length = (source.length + B - 1) / B := by
  have := syncBatchesAux_length source B hB (source.length + 1) 0 (by omega)
  simpa [syncBatches] using this

theorem syncBatchesAux_ne_nil {α : Type} (source : List α) (B : Nat) :
    ∀ fuel offset, ∀ b ∈ syncBatchesAux source B fuel offset, b ≠ [] := by
  intro fuel
  induction fuel with
  | zero => intro offset b hb; simp [syncBatchesAux] at hb
  | succ n ih =>
    intro offset b hb
    rcases hcase : fetchBatch source offset B with _ | ⟨r, rs⟩
    · simp [syncBatchesAux, hcase] at hb
    · simp only [syncBatchesAux, hcase, List.mem_cons] at hb
      rcases hb with rfl | hb
      · simp
      · exact ih _ b hb

/-- Distinct source rows are never fetched twice: the batches are pairwise
disjoint. -/
theorem syncBatches_pairwise_disjoint {α : Type} (source : List α) (B : Nat)
    (hB : 0 < B) (hnd : source.Nodup) :
    List.Pairwise List.Disjoint (syncBatches source B 0) := by
  have hflat : (syncBatches source B 0).flatten.Nodup := by
    rw [syncBatches_flatten source B hB]; exact hnd
  exact (List.nodup_flatten.mp hflat).2

/-- On an unchanged source the `work_item_details` loop (offset advanced by
the requested batch size) fetches exactly the same sequence of batches as the
`pipeline_base` loop (offset advanced by the returned row count): a short
batch can only occur at the very end of the table, where both variants
terminate at the next (empty) fetch. -/
theorem syncBatchesFixedAux_eq {α : Type} (source : List α) (B : Nat) :
    ∀ fuel offset,
      syncBatchesFixedAux source B fuel offset = syncBatchesAux source B fuel offset := by
  intro fuel
  induction fuel with
  | zero => intro offset; rfl
  | succ n ih =>
    intro offset
    rcases hcase : fetchBatch source offset B with _ | ⟨r, rs⟩
    · simp [syncBatchesFixedAux, syncBatchesAux, hcase]
    · have hlen : (r :: rs).length = min B (source.length - offset) := by
        rw [← hcase]; exact fetchBatch_length source offset B
      simp only [syncBatchesFixedAux, syncBatchesAux, hcase]
      rcases le_or_lt B (source.length - offset) with h | h
      · have : (r :: rs).length = B := by omega
        rw [this, ih]
      · have hend : source.length ≤ offset + (r :: rs).length := by omega
        have hendB : source.length ≤ offset + B := by omega
        rw [syncBatchesFixedAux_of_le source B n _ hendB,
          syncBatchesAux_of_le source B n _ hend]

theorem syncBatchesFixed_eq {α : Type} (source : List α) (B offset : Nat) :
    syncBatchesFixed source B offset = syncBatches source B offset :=
  syncBatchesFixedAux_eq source B _ offset

/-- In the `pipeline_base` loops the final offset equals the initial offset
plus the total number of rows actually returned: the offset is advanced by
the returned row count of each batch. -/
theorem syncScanAux_final {α : Type} (source : List α) (B : Nat) :
    ∀ fuel offset,
      (syncScanAux source B fuel offset).2 =
        offset + (((syncScanAux source B fuel offset).1.map Prod.snd).sum) := by
  intro fuel
  induction fuel with
  | zero => intro offset; simp [syncScanAux]
  | succ n ih =>
    intro offset
    rcases hcase : fetchBatch source offset B with _ | ⟨r, rs⟩
    · simp [syncScanAux, hcase]
    · simp only [syncScanAux, hcase, List.map_cons, List.sum_cons]
      rw [ih]
      omega

/-- In the `work_item_details` loop the final offset equals the initial
offset plus `batch_size` times the number of batches: the offset is advanced
by the requested batch size, regardless of how many rows were returned. -/
theorem syncScanFixedAux_final {α : Type} (source : List α) (B : Nat) :
    ∀ fuel offset,
      (syncScanFixedAux source B fuel offset).2 =
        offset + B * (syncScanFixedAux source B fuel offset).1.length := by
  intro fuel
  induction fuel with
  | zero => intro offset; simp [syncScanFixedAux]
  | succ n ih =>
    intro offset
    rcases hcase : fetchBatch source offset B with _ | ⟨r, rs⟩
    · simp [syncScanFixedAux, hcase]
    · simp only [syncScanFixedAux, hcase, List.length_cons]
      rw [ih]
      ring

/-! ## Reconciler

A keyed row is a pair `(key, payload)`; the key is the value of the
configured key columns (`primary_key` in `_merge_batch`, the pair
`(WORK_ITEM_ID, REPORTING_DATE)` in the daily sync MERGE statements).
`bqMerge` embeds the MERGE statement
`MERGE target T USING staging S ON T.key = S.key
 WHEN MATCHED THEN UPDATE SET all columns
 WHEN NOT MATCHED THEN INSERT all columns`:
every matched target row is overwritten by its matching staged row, every
unmatched staged row is appended.  BigQuery aborts the statement at run time
when one target row is matched by two or more staged rows; that error is the
`none` result. -/

variable {κ ν : Type} [DecidableEq κ]

def mergeConflict (target staged : List (κ × ν)) : Prop :=
  ∃ t ∈ target, 2 ≤ staged.countP (fun s => decide (s.1 = t.1))

instance (target staged : List (κ × ν)) : Decidable (mergeConflict target staged) :=
  List.decidableBEx _ target

def bqMerge (target staged : List (κ × ν)) : Option (List (κ × ν)) :=
  if mergeConflict target staged then none
  else some
    ((target.map fun t => (staged.find? (fun s => decide (s.1 = t.1))).getD t)
      ++ staged.filter fun s => !(target.any fun t => decide (t.1 = s.1)))

/-- Embedding of `_deduplicate_table` (`pipeline_base.py`): it keeps exactly one row per
primary key (`ROW_NUMBER() OVER (PARTITION BY pk ...) = 1`); which row of a
duplicate group survives is unspecified in the SQL, embedded here as
keep-first. -/
def dedupByKeyAux : List κ → List (κ × ν) → List (κ × ν)
  | _, [] => []
  | seen, r :: rest =>
    if r.1 ∈ seen then dedupByKeyAux seen rest
    else r :: dedupByKeyAux (r.1 :: seen) rest

def dedupByKey (l : List (κ × ν)) : List (κ × ν) :=
  dedupByKeyAux [] l

/-! ## Staging loader

Each sync invocation appends its batches into one staging table;
`insert_rows_json` errors abort the invocation (`RuntimeError`).  A batch is
a row list together with the success of its staging append; `loadBatches`
returns the staged contents, or `none` when some append failed. -/

def loadBatches {ρ : Type} : List (List ρ × Bool) → Option (List ρ)
  | [] => some []
  | (rows, ok) :: rest =>
    if ok then (loadBatches rest).map (fun s => rows ++ s) else none

/-! ## Orchestrators -/

/-- Outcome of one sync invocation: final target content, number of MERGE
statements issued against the permanent target, whether every staging/temp
table of the invocation was deleted before returning, and success. -/
structure InvocationResult (ρ : Type) where
  target : List ρ
  mergeCount : Nat
  stagingDeleted : Bool
  ok : Bool
deriving Repr, DecidableEq

/-- Embedding of `run_full_sync` (`pipeline_base.py`): load every batch into the temp
table; on a load error the `except` branch deletes the temp table and
re-raises.  With zero rows the replace is skipped and the temp table is
deleted.  Otherwise `CREATE OR REPLACE TABLE target AS SELECT * FROM temp`
replaces the target with the staged contents (`_replace_table`); whether the
replace job succeeds is the `replaceOk` input; the temp table is deleted
afterwards in either case (success path, or `except` branch). -/
def runFullSync {ρ : Type} (target : List ρ) (batches : List (List ρ × Bool))
    (replaceOk : Bool) : InvocationResult ρ :=
  match loadBatches batches with
  | none => ⟨target, 0, true, false⟩
  | some staged =>
    if staged.length = 0 then ⟨target, 0, true, true⟩
    else if replaceOk then ⟨staged, 0, true, true⟩
    else ⟨target, 0, true, false⟩

/-- The batch loop of `run_incremental_sync` (`pipeline_base.py`): for each
fetched batch, `_merge_batch` loads the batch into a fresh per-batch temp
table and immediately issues a MERGE against the permanent target.  A load
error raises before the merge (leaving that temp table undeleted, target as
already mutated by the previous merges); a failed MERGE job raises after the
statement ran. -/
def runIncrementalLoop : List (κ × ν) → List (List (κ × ν) × Bool) →
    InvocationResult (κ × ν)
  | target, [] => ⟨target, 0, true, true⟩
  | target, (rows, ok) :: rest =>
    if ok then
      match bqMerge target rows with
      | none => ⟨target, 1, false, false⟩
      | some t2 =>
        let r := runIncrementalLoop t2 rest
        ⟨r.target, r.mergeCount + 1, r.stagingDeleted, r.ok⟩
    else ⟨target, 0, false, false⟩

/-- Embedding of `run_incremental_sync` (`pipeline_base.py`): the merge-per-batch loop,
then — when the loop completed and `enable_deduplication` is configured
(default true) — `_deduplicate_table` against the target. -/
def runIncrementalSync (dedupEnabled : Bool) (target : List (κ × ν))
    (batches : List (List (κ × ν) × Bool)) : InvocationResult (κ × ν) :=
  let r := runIncrementalLoop target batches
  if r.ok && dedupEnabled then
    { r with target := dedupByKey r.target }
  else r

/-- Embedding of `sync_daily_incremental` (`work_item_details_sync_daily/main.py`): load
all batches into one staging table; a load error raises and the
`except Exception` handler returns an error *without deleting the staging
table* (only its 2-hour auto-expiry remains).  With zero fetched rows the
staging table is deleted and the invocation returns early.  Otherwise one
MERGE reconciles staging into the target; on merge failure the handler again
returns without deleting the staging table; on success the staging table is
deleted. -/
def widSyncDailyIncremental (target : List (κ × ν))
    (batches : List (List (κ × ν) × Bool)) : InvocationResult (κ × ν) :=
  match loadBatches batches with
  | none => ⟨target, 0, false, false⟩
  | some staged =>
    if staged.length = 0 then ⟨target, 0, true, true⟩
    else
      match bqMerge target staged with
      | none => ⟨target, 1, false, false⟩
      | some t2 => ⟨t2, 1, true, true⟩

theorem loadBatches_map_true {ρ : Type} (l : List (List ρ)) :
    loadBatches (l.map fun b => (b, true)) = some l.flatten := by
  induction l with
  | nil => rfl
  | cons b rest ih => simp [loadBatches, ih]

/-! ### MERGE lemmas -/

/-- The key-column values of a table, in row order (the view under which the
at-most-one-row-per-key invariant is stated). -/
def keysOf (l : List (κ × ν)) : List κ :=
  l.map Prod.fst

theorem countP_key_eq_count (l : List (κ × ν)) (k : κ) :
    l.countP (fun s => decide (s.1 = k)) = (keysOf l).count k := by
  induction l with
  | nil => rfl
  | cons s rest ih =>
    simp only [List.countP_cons, keysOf, List.map_cons, List.count_cons, ih, keysOf]
    by_cases h : s.1 = k <;> simp [h]

theorem countP_key_le_one {l : List (κ × ν)} (h : (keysOf l).Nodup) (k : κ) :
    l.countP (fun s => decide (s.1 = k)) ≤ 1 := by
  rw [countP_key_eq_count]
  exact List.nodup_iff_count_le_one.mp h k

theorem no_mergeConflict_of_nodup {target staged : List (κ × ν)}
    (hs : (keysOf staged).Nodup) : ¬ mergeConflict target staged := by
  intro ⟨t, _, hcount⟩
  have := countP_key_le_one hs t.1
  omega

theorem keysOf_merge_updated (target staged : List (κ × ν)) :
    keysOf (target.map fun t => (staged.find? (fun s => decide (s.1 = t.1))).getD t) =
      keysOf target := by
  unfold keysOf
  rw [List.map_map]
  apply List.map_congr_left
  intro t _
  simp only [Function.comp_apply]
  cases hf : staged.find? (fun s => decide (s.1 = t.1)) with
  | none => rfl
  | some s =>
    have hp := List.find?_some hf
    simp only [decide_eq_true_eq] at hp
    simp [hp]

/-- After a MERGE whose staging table has no duplicate keys and whose target
had no duplicate keys, the target again has no duplicate keys, and every
staged key and every pre-existing target key is present. -/
theorem bqMerge_nodup {target staged : List (κ × ν)}
    (ht : (keysOf target).Nodup) (hs : (keysOf staged).Nodup) :
    ∃ res, bqMerge target staged = some res ∧ (keysOf res).Nodup ∧
      (∀ s ∈ staged, s.1 ∈ keysOf res) ∧ (∀ t ∈ target, t.1 ∈ keysOf res) := by
  have hnc : ¬ mergeConflict target staged := no_mergeConflict_of_nodup hs
  set A := target.map (fun t => (staged.find? (fun s => decide (s.1 = t.1))).getD t)
    with hAdef
  set Bf := staged.filter (fun s => !(target.any fun t => decide (t.1 = s.1))) with hBdef
  have hres : bqMerge target staged = some (A ++ Bf) := by
    rw [bqMerge, if_neg hnc]
  have hkeysA : A.map Prod.fst = target.map Prod.fst :=
    keysOf_merge_updated target staged
  have hkeys : keysOf (A ++ Bf) = keysOf target ++ keysOf Bf := by
    unfold keysOf
    rw [List.map_append, hkeysA]
  have hBfmem : ∀ k, k ∈ keysOf Bf → ∀ t ∈ target, t.1 ≠ k := by
    intro k hk t htmem
    simp only [keysOf, List.mem_map] at hk
    obtain ⟨s, hsmem, rfl⟩ := hk
    have hq := List.of_mem_filter hsmem
    simp only [Bool.not_eq_eq_eq_not, Bool.not_true, List.any_eq_false,
      decide_eq_true_eq] at hq
    exact hq t htmem
  refine ⟨A ++ Bf, hres, ?_, ?_, ?_⟩
  · rw [hkeys, List.nodup_append]
    refine ⟨ht, ?_, ?_⟩
    · have hsub : List.Sublist (Bf.map Prod.fst) (staged.map Prod.fst) :=
        List.Sublist.map Prod.fst (List.filter_sublist staged)
      exact hsub.nodup hs
    · intro k hk hk2
      simp only [keysOf, List.mem_map] at hk
      obtain ⟨t, htmem, hteq⟩ := hk
      exact hBfmem k hk2 t htmem hteq
  · intro s hsmem
    rw [hkeys]
    by_cases hmatch : ∃ t ∈ target, t.1 = s.1
    · obtain ⟨t, htmem, hteq⟩ := hmatch
      exact List.mem_append_left _ (hteq ▸ List.mem_map.mpr ⟨t, htmem, rfl⟩)
    · apply List.mem_append_right
      push_neg at hmatch
      have hsBf : s ∈ Bf := by
        rw [hBdef]
        refine List.mem_filter.mpr ⟨hsmem, ?_⟩
        simp only [Bool.not_eq_eq_eq_not, Bool.not_true, List.any_eq_false,
          decide_eq_true_eq]
        exact fun t htmem => hmatch t htmem
      exact List.mem_map.mpr ⟨s, hsBf, rfl⟩
  · intro t htmem
    rw [hkeys]
    exact List.mem_append_left _ (List.mem_map.mpr ⟨t, htmem, rfl⟩)

/-! ## Row normalization

A fetched cell value: SQL NULL (`None`), a date/timestamp (carrying its
`isoformat()` rendering), an arbitrary-precision `Decimal` (carrying its
`str()` rendering), a structured `dict`/`list` (carrying its `json.dumps`
rendering), or any other scalar. -/

inductive SFValue : Type
  | null
  | date (iso : String)
  | dec (canonical : String)
  | struct (json : String)
  | other (s : String)
deriving DecidableEq, Repr

/-- A cell as written to the sink: JSON null, a string, or the scalar passed
through unchanged. -/
inductive BQValue : Type
  | null
  | str (s : String)
  | raw (v : SFValue)
deriving DecidableEq, Repr

/-- Value conversion of `convert_row_to_dict` (`pipeline_base.py`):
`None` is written as null, datetimes as their ISO string, Decimals as their
string form, dicts/lists as JSON text, everything else unchanged. -/
def convertValueUnified : SFValue → BQValue
  | .null => .null
  | .date iso => .str iso
  | .dec s => .str s
  | .struct j => .str j
  | .other s => .raw (.other s)

/-- Value conversion of the `work_item_details` daily sync loop: datetimes
and Decimals are stringified; everything else — `None` included — falls to
the pass-through branch. -/
def convertValueWID : SFValue → BQValue
  | .date iso => .str iso
  | .dec s => .str s
  | .null => .null
  | v => .raw v

/-- The Python test
`value is None or str(value).lower() in [\x27none\x27, \x27null\x27, \x27\x27]`
guarding the `REPORTING_DATE` branch of the `work_item_budget_vs_actual`
daily sync. -/
def pyNullish : SFValue → Bool
  | .null => true
  | .other s => s.toLower = "none" || s.toLower = "null" || s = ""
  | _ => false

/-- Value conversion of the `work_item_budget_vs_actual` daily sync loop:
datetimes and Decimals are stringified; then, only for the column named
`REPORTING_DATE`, a null-ish value is replaced by the current sync date;
everything else passes through. -/
def convertValueBVA (colName currentDate : String) : SFValue → BQValue
  | .date iso => .str iso
  | .dec s => .str s
  | .null => if colName = "REPORTING_DATE" then .str currentDate else .null
  | v => if colName = "REPORTING_DATE" && pyNullish v then .str currentDate else .raw v

/-- Row-level normalization: a row is the list of (column name, value) pairs
in column order. -/
def convertRowToDict (row : List (String × SFValue)) : List (String × BQValue) :=
  row.map fun cv => (cv.1, convertValueUnified cv.2)

def widNormalizeRow (row : List (String × SFValue)) : List (String × BQValue) :=
  row.map fun cv => (cv.1, convertValueWID cv.2)

def bvaNormalizeRow (currentDate : String) (row : List (String × SFValue)) :
    List (String × BQValue) :=
  row.map fun cv => (cv.1, convertValueBVA cv.1 currentDate cv.2)

/-! ## The `work_item_budget_vs_actual` daily sync (row-level view)

`BVARow` keeps the columns this pipeline branches on; nullable columns are
`Option`-valued (`none` = SQL NULL). -/

structure BVARow : Type where
  workItemId : Option String
  userId : Option String
  userName : Option String
  reportingDate : Option String
  payload : String
deriving DecidableEq, Repr

/-- The SMART-DELETE key of a row: the Python side builds it with
`str(x or \x27\x27)` and the SQL side with `COALESCE(col, \x27\x27)` — both
coalesce NULL to the empty string. -/
def bvaKey (r : BVARow) : String × String × String :=
  (r.workItemId.getD "", r.userId.getD "", r.userName.getD "")

/-- Staging-time normalization of the row: a NULL `REPORTING_DATE` is
replaced by the current sync date (the value-level detail is
`convertValueBVA`). -/
def bvaNormalizeDateRow (today : String) (r : BVARow) : BVARow :=
  { r with reportingDate := some (r.reportingDate.getD today) }

/-- First-occurrence deduplication, the embedding of collecting
`current_snowflake_keys` into a Python `set` and listing it. -/
def distinctAux {β : Type} [DecidableEq β] (seen : List β) : List β → List β
  | [] => []
  | x :: xs => if x ∈ seen then distinctAux seen xs else x :: distinctAux (x :: seen) xs

def distinct {β : Type} [DecidableEq β] (l : List β) : List β :=
  distinctAux [] l

/-- The MERGE of the budget-vs-actual daily sync, keyed on
`(WORK_ITEM_ID, REPORTING_DATE)`; the SQL `ON T.x = S.x` predicate is false
whenever either side is NULL. -/
def bvaMatch (t s : BVARow) : Bool :=
  t.workItemId.isSome && t.reportingDate.isSome &&
    decide (t.workItemId = s.workItemId) && decide (t.reportingDate = s.reportingDate)

def bqMergeOn {ρ : Type} (mtch : ρ → ρ → Bool) (target staged : List ρ) :
    Option (List ρ) :=
  if target.any (fun t => decide (2 ≤ staged.countP (mtch t))) then none
  else some ((target.map fun t => (staged.find? (mtch t)).getD t)
    ++ staged.filter fun s => !(target.any fun t => mtch t s))

/-- The SMART-DELETE statement: when at least one key was collected,
`DELETE FROM target WHERE REPORTING_DATE = today AND (coalesced key) NOT IN
(first 1000 collected keys)`; with no collected keys the deletion is
skipped. -/
def bvaSmartDelete (target : List BVARow) (keys : List (String × String × String))
    (today : String) : List BVARow :=
  if keys.length = 0 then target
  else target.filter fun r =>
    !(decide (r.reportingDate = some today ∧ bvaKey r ∉ keys.take 1000))

/-- Embedding of `sync_daily_incremental`
(`work_item_budget_vs_actual_sync_daily/main.py`), target-content view.
With zero fetched rows the invocation runs a source-side count check whose
result is only logged, deletes the empty staging table and returns — no
MERGE and no DELETE touch the target.  Otherwise the staged (normalized)
rows are merged and the smart delete runs against the collected keys.
The Bool is the success of the invocation. -/
def bvaSyncDailyIncremental (target : List BVARow) (fetched : List BVARow)
    (today : String) : List BVARow × Bool :=
  if fetched.length = 0 then (target, true)
  else
    let staged := fetched.map (bvaNormalizeDateRow today)
    match bqMergeOn bvaMatch target staged with
    | none => (target, false)
    | some merged => (bvaSmartDelete merged (distinct (staged.map bvaKey)) today, true)

/-! ## Connection pool

`SnowflakeConnectionPool.get_connection` (`credentials_manager.py`), the
state of the pool and the first acquisition attempt inside the lock, with
connection creation succeeding.  `pool` is the number of idle pooled
connections, `active` the value of `active_connections`. -/

structure PoolState where
  pool : Nat
  active : Nat
  maxConnections : Nat
deriving DecidableEq, Repr

inductive AcquireAction : Type
  | fromPool
  | createTracked
  | createUntracked
deriving DecidableEq, Repr

/-- The three branches of the acquisition: pop an idle connection; else, if
under the cap, create one and count it; else — the branch whose comment
reads `Wait for a connection to be available` — log
`Connection pool exhausted, creating new connection` and create one anyway,
without incrementing `active_connections`. -/
def getConnectionStep (s : PoolState) : AcquireAction × PoolState :=
  if 0 < s.pool then (.fromPool, { s with pool := s.pool - 1 })
  else if s.active < s.maxConnections then (.createTracked, { s with active := s.active + 1 })
  else (.createUntracked, s)

/-- Whether the acquisition opened a brand-new source-database connection. -/
def createsNewConnection (a : AcquireAction) : Bool :=
  match a with
  | .fromPool => false
  | .createTracked => true
  | .createUntracked => true

/-! ## Freshness monitor

`check_data_freshness` and the action loop of `run_monitoring`
(`pipeline_fallback_monitor.py`).  A monitored table is summarized by the
list of its `REPORTING_DATE` values in days; `MAX` of an empty table is
NULL, making `DATE_DIFF` NULL, and `days_behind = result.days_behind or 0`
coalesces that to 0. -/

structure FreshnessThresholds where
  warningThresholdDays : Int
  criticalThresholdDays : Int
deriving DecidableEq, Repr

inductive FreshnessStatus : Type
  | OK
  | WARNING
  | CRITICAL
deriving DecidableEq, Repr

def tableDaysBehind (today : Int) (reportingDates : List Int) : Option Int :=
  match reportingDates.max? with
  | none => none
  | some m => some (today - m)

def effectiveDaysBehind (daysBehind : Option Int) : Int :=
  match daysBehind with
  | none => 0
  | some d => d

def classifyFreshness (daysBehind : Option Int) (cfg : FreshnessThresholds) :
    FreshnessStatus :=
  let d := effectiveDaysBehind daysBehind
  if d > cfg.criticalThresholdDays then .CRITICAL
  else if d > cfg.warningThresholdDays then .WARNING
  else .OK

def checkDataFreshness (today : Int) (reportingDates : List Int)
    (cfg : FreshnessThresholds) : FreshnessStatus :=
  classifyFreshness (tableDaysBehind today reportingDates) cfg

structure MonitoredTable where
  name : String
  thresholds : FreshnessThresholds
  fallbackFunction : String
deriving DecidableEq, Repr

/-- The table entries of `MONITORING_CONFIG` in `pipeline_fallback_monitor.py`. -/
def monitoringConfigTables : List MonitoredTable :=
  [⟨"WORK_ITEM_BUDGET_TIME_TRACKING_VIEW_V4", ⟨1, 3⟩, "sync-full-work-item-details-to-bq"⟩,
   ⟨"WORK_ITEM_DETAILS_BQ", ⟨1, 3⟩, "sync-full-work-item-details-to-bq"⟩,
   ⟨"USER_TIME_ENTRY_BQ", ⟨1, 3⟩, "sync-user-time-entries"⟩]

inductive MonitorAction : Type
  | triggerFallbackAndAlert
  | alertOnly
  | nothing
deriving DecidableEq, Repr

/-- The per-table action loop of `run_monitoring`: CRITICAL triggers the
fallback function and sends an alert, WARNING sends an alert only, OK does
nothing. -/
def monitorAction : FreshnessStatus → MonitorAction
  | .CRITICAL => .triggerFallbackAndAlert
  | .WARNING => .alertOnly
  | .OK => .nothing

/-! ## Claim theorems -/

/-- C5, counterexample.  On the 3-row source with batch size 2, the
`work_item_details` extraction loop fetches 2 rows at offset 0 and 1 row at
offset 2, and then issues its terminating fetch at offset 4 = 2 + 2 (the
requested batch size), not at offset 3 = 2 + 1 (the rows actually
returned): the claim's offset-advance rule is false for that loop. -/
theorem C5_counterexample :
    syncScanFixed [10, 20, 30] 2 0 = ([(0, 2), (2, 1)], 4) ∧
      syncScan [10, 20, 30] 2 0 = ([(0, 2), (2, 1)], 3) ∧ (4 : Nat) ≠ 2 + 1 := by
  refine ⟨by decide, by decide, by decide⟩

/-- C5, amended.  For a static source of `N` rows, batch size `B > 0` and a
stable distinct ordering key: both extraction loops issue exactly
`ceil(N/B)` non-empty batches whose concatenation is the whole source, with
no row in two batches, and the two loops fetch identical batch sequences;
the `pipeline_base` loop advances its offset by the rows actually returned
(its final offset is the sum of the returned batch sizes), while the
`work_item_details` loop advances by the requested batch size (its final
offset is `B` times the number of batches). -/
theorem C5_amended {α : Type} (source : List α) (B : Nat) (hB : 0 < B)
    (hnd : source.Nodup) :
    (syncBatches source B 0).length = (source.length + B - 1) / B ∧
    (syncBatches source B 0).flatten = source ∧
    (∀ b ∈ syncBatches source B 0, b ≠ []) ∧
    List.Pairwise List.Disjoint (syncBatches source B 0) ∧
    syncBatchesFixed source B 0 = syncBatches source B 0 ∧
    (syncScan source B 0).2 = ((syncScan source B 0).1.map Prod.snd).sum ∧
    (syncScanFixed source B 0).2 = B * (syncScanFixed source B 0).1.length := by
  refine ⟨syncBatches_length source B hB, syncBatches_flatten source B hB,
    fun b hb => syncBatchesAux_ne_nil source B _ 0 b hb,
    syncBatches_pairwise_disjoint source B hB hnd,
    syncBatchesFixed_eq source B 0, ?_, ?_⟩
  · have := syncScanAux_final source B (source.length + 1) 0
    simpa [syncScan] using this
  · have := syncScanFixedAux_final source B (source.length + 1) 0
    simpa [syncScanFixed] using this

/-- C5, witness for the amended theorem at the 3-row source and batch size
2. -/
theorem C5_witness :
    (syncBatches [10, 20, 30] 2 0).length = (3 + 2 - 1) / 2 ∧
    (syncBatches [10, 20, 30] 2 0).flatten = [10, 20, 30] ∧
    (∀ b ∈ syncBatches [10, 20, 30] 2 0, b ≠ []) ∧
    List.Pairwise List.Disjoint (syncBatches [10, 20, 30] 2 0) ∧
    syncBatchesFixed [10, 20, 30] 2 0 = syncBatches [10, 20, 30] 2 0 ∧
    (syncScan [10, 20, 30] 2 0).2 = ((syncScan [10, 20, 30] 2 0).1.map Prod.snd).sum ∧
    (syncScanFixed [10, 20, 30] 2 0).2 = 2 * (syncScanFixed [10, 20, 30] 2 0).1.length :=
  C5_amended [10, 20, 30] 2 (by decide) (by decide)

/-- C6.  Re-running the same full sync (`run_full_sync`) against an
unchanged source leaves the target exactly as the first run left it, for
every source — including the empty source, where the replace step is
skipped on both runs and the target simply keeps its previous content both
times. -/
theorem C6_full_sync_idempotent {ρ : Type} (source : List ρ) (target : List ρ)
    (B : Nat) (hB : 0 < B) :
    (runFullSync
        (runFullSync target ((syncBatches source B 0).map fun b => (b, true)) true).target
        ((syncBatches source B 0).map fun b => (b, true)) true).target =
      (runFullSync target ((syncBatches source B 0).map fun b => (b, true)) true).target := by
  have hload : loadBatches ((syncBatches source B 0).map fun b => (b, true)) =
      some source := by
    rw [loadBatches_map_true, syncBatches_flatten source B hB]
  rcases Nat.eq_zero_or_pos source.length with hz | hp
  · simp [runFullSync, hload, hz]
  · simp [runFullSync, hload, Nat.pos_iff_ne_zero.mp hp]

/-- C6, witness at a 3-row source and an initially different target. -/
theorem C6_witness :
    (runFullSync
        (runFullSync [99] ((syncBatches [1, 2, 3] 2 0).map fun b => (b, true)) true).target
        ((syncBatches [1, 2, 3] 2 0).map fun b => (b, true)) true).target =
      (runFullSync [99] ((syncBatches [1, 2, 3] 2 0).map fun b => (b, true)) true).target :=
  C6_full_sync_idempotent [1, 2, 3] [99] 2 (by decide)

/-- C1, counterexample.  In `run_incremental_sync` the MERGE runs once per
batch: when the staging load of batch 2 fails, batch 1 has already been
merged, so the target has changed from `[]` to `[(1, a)]` although the
invocation failed; and a successful 2-batch invocation issues 2 MERGE
statements, not at most 1. -/
theorem C1_counterexample :
    (runIncrementalSync true ([] : List (Nat × String))
        [([(1, "a")], true), ([(2, "b")], false)]).target = [(1, "a")] ∧
    [((1 : Nat), "a")] ≠ ([] : List (Nat × String)) ∧
    (runIncrementalSync true ([] : List (Nat × String))
        [([(1, "a")], true), ([(2, "b")], true)]).mergeCount = 2 := by
  refine ⟨by decide, by decide, by decide⟩

/-- C1, amended.  The claim holds for the `work_item_details` daily sync:
a failed staging append leaves the target untouched with zero MERGEs
issued, and every invocation issues at most one MERGE, after all batches
are staged.  It fails for `run_incremental_sync` in `pipeline_base.py`,
which issues one MERGE per batch (a completed invocation issues exactly as
many MERGE statements as it has batches), so a mid-loop append failure
leaves the earlier batches already merged into the target. -/
theorem C1_amended {κ ν : Type} [DecidableEq κ] :
    (∀ (target : List (κ × ν)) batches, loadBatches batches = none →
      (widSyncDailyIncremental target batches).target = target ∧
        (widSyncDailyIncremental target batches).mergeCount = 0) ∧
    (∀ (target : List (κ × ν)) batches,
      (widSyncDailyIncremental target batches).mergeCount ≤ 1) ∧
    (∀ (dedupEnabled : Bool) (target : List (κ × ν)) batches,
      (runIncrementalSync dedupEnabled target batches).ok = true →
        (runIncrementalSync dedupEnabled target batches).mergeCount = batches.length) := by
  have hloop : ∀ (target : List (κ × ν)) batches,
      (runIncrementalLoop target batches).ok = true →
        (runIncrementalLoop target batches).mergeCount = batches.length := by
    intro target batches
    induction batches generalizing target with
    | nil => intro _; rfl
    | cons b rest ih =>
      obtain ⟨rows, ok⟩ := b
      cases ok with
      | false => intro h; simp [runIncrementalLoop] at h
      | true =>
        intro h
        cases hm : bqMerge target rows with
        | none => rw [runIncrementalLoop] at h; simp [hm] at h
        | some t2 =>
          have hrw : runIncrementalLoop target ((rows, true) :: rest) =
              ⟨(runIncrementalLoop t2 rest).target,
               (runIncrementalLoop t2 rest).mergeCount + 1,
               (runIncrementalLoop t2 rest).stagingDeleted,
               (runIncrementalLoop t2 rest).ok⟩ := by
            simp [runIncrementalLoop, hm]
          rw [hrw] at h ⊢
          simp only [List.length_cons]
          rw [ih t2 h]
  refine ⟨?_, ?_, ?_⟩
  · intro target batches hload
    simp [widSyncDailyIncremental, hload]
  · intro target batches
    rw [widSyncDailyIncremental]
    cases hload : loadBatches batches with
    | none => simp
    | some staged =>
      by_cases hz : staged.length = 0
      · simp [hz]
      · cases hm : bqMerge target staged with
        | none => simp [hz, hm]
        | some t2 => simp [hz, hm]
  · intro dedupEnabled target batches hok
    rw [runIncrementalSync] at hok ⊢
    by_cases hcond : (runIncrementalLoop target batches).ok && dedupEnabled
    · simp only [hcond, if_pos rfl] at hok ⊢
      exact hloop target batches (by
        rcases Bool.and_eq_true_iff.mp hcond with ⟨h1, _⟩
        exact h1)
    · rw [if_neg (by simp [hcond])] at hok ⊢
      exact hloop target batches hok

/-- C1, witness for the amended theorem at concrete 1-batch and 2-batch
invocations over `Nat`-keyed rows. -/
theorem C1_witness :
    ((widSyncDailyIncremental ([(5, "z")] : List (Nat × String))
        [([(1, "a")], false)]).target = [(5, "z")] ∧
      (widSyncDailyIncremental ([(5, "z")] : List (Nat × String))
        [([(1, "a")], false)]).mergeCount = 0) ∧
    (widSyncDailyIncremental ([] : List (Nat × String))
        [([(1, "a")], true), ([(2, "b")], true)]).mergeCount ≤ 1 ∧
    (runIncrementalSync true ([] : List (Nat × String))
        [([(1, "a")], true), ([(2, "b")], true)]).mergeCount = 2 :=
  ⟨C1_amended.1 [(5, "z")] [([(1, "a")], false)] (by decide),
   C1_amended.2.1 [] [([(1, "a")], true), ([(2, "b")], true)],
   C1_amended.2.2 true [] [([(1, "a")], true), ([(2, "b")], true)] (by decide)⟩

/-- C2, counterexample.  In the `work_item_details` daily sync a failed
staging append raises, the handler returns an error, and the staging table
is not deleted (`stagingDeleted = false`): deletion does not happen on
every exception path. -/
theorem C2_counterexample :
    (widSyncDailyIncremental ([] : List (Nat × String))
        [([(1, "a")], false)]).stagingDeleted = false := by
  decide

/-- C2, amended.  The unified pipeline's `run_full_sync` deletes its staging
table on every path — success, zero-rows early return, staging-load
exception and replace exception.  The `work_item_details` daily sync
deletes it only on the success and zero-rows paths; on its exception paths
(load or merge failure) no deletion happens and only the staging table's
2-hour auto-expiry remains. -/
theorem C2_amended {κ ν : Type} [DecidableEq κ] :
    (∀ (target : List (κ × ν)) batches replaceOk,
      (runFullSync target batches replaceOk).stagingDeleted = true) ∧
    (∀ (target : List (κ × ν)) batches,
      (widSyncDailyIncremental target batches).ok = true →
        (widSyncDailyIncremental target batches).stagingDeleted = true) := by
  constructor
  · intro target batches replaceOk
    rw [runFullSync]
    cases hload : loadBatches batches with
    | none => rfl
    | some staged =>
      by_cases hz : staged.length = 0
      · simp [hz]
      · by_cases hr : replaceOk = true
        · simp [hz, hr]
        · simp [hz, Bool.eq_false_iff.mpr hr]
  · intro target batches
    rw [widSyncDailyIncremental]
    cases hload : loadBatches batches with
    | none => intro h; simp at h
    | some staged =>
      by_cases hz : staged.length = 0
      · intro _; simp [hz]
      · cases hm : bqMerge target staged with
        | none => intro h; simp [hz, hm] at h
        | some t2 => intro _; simp [hz, hm]

/-- C2, witness: the full-sync conjunct at a failing batch list, the
daily-sync conjunct at a succeeding one. -/
theorem C2_witness :
    (runFullSync ([(7, "v")] : List (Nat × String)) [([(1, "a")], false)]
        true).stagingDeleted = true ∧
    (widSyncDailyIncremental ([] : List (Nat × String))
        [([(1, "a")], true)]).stagingDeleted = true :=
  ⟨C2_amended.1 [(7, "v")] [([(1, "a")], false)] true,
   C2_amended.2 [] [([(1, "a")], true)] (by decide)⟩

/-- C4, counterexample.  A staging table containing two rows with the same
key, none of which matches a target row, makes the MERGE insert both: the
target then has a key group of size 2, not 1. -/
theorem C4_counterexample :
    bqMerge ([] : List (Nat × String)) [(1, "a"), (1, "b")] =
        some [(1, "a"), (1, "b")] ∧
      ([(1, "a"), (1, "b")] : List (Nat × String)).countP
        (fun r => decide (r.1 = 1)) = 2 := by
  refine ⟨by decide, by decide⟩

/-- C4, amended.  When the staging table has no duplicate keys and the
target had at most one row per key, the MERGE succeeds and afterwards every
key present in the target groups exactly one row, with every staged key and
every pre-existing target key present; staging contents with duplicate keys
are excluded, since the MERGE inserts unmatched duplicates side by side
(and aborts when duplicates match an existing target row). -/
theorem C4_amended {κ ν : Type} [DecidableEq κ] (target staged : List (κ × ν))
    (ht : (keysOf target).Nodup) (hs : (keysOf staged).Nodup) :
    ∃ res, bqMerge target staged = some res ∧
      (∀ k ∈ keysOf res, (keysOf res).count k = 1) ∧
      (∀ s ∈ staged, s.1 ∈ keysOf res) ∧ (∀ t ∈ target, t.1 ∈ keysOf res) := by
  obtain ⟨res, hres, hnd, hstaged, htarget⟩ := bqMerge_nodup ht hs
  exact ⟨res, hres, fun k hk => List.count_eq_one_of_mem hnd hk, hstaged, htarget⟩

/-- C4, witness at a 1-row target and a 2-row staging with distinct keys. -/
theorem C4_witness :
    ∃ res, bqMerge ([(1, "old")] : List (Nat × String)) [(1, "new"), (2, "b")] =
        some res ∧
      (∀ k ∈ keysOf res, (keysOf res).count k = 1) ∧
      (∀ s ∈ ([(1, "new"), (2, "b")] : List (Nat × String)), s.1 ∈ keysOf res) ∧
      (∀ t ∈ ([(1, "old")] : List (Nat × String)), t.1 ∈ keysOf res) :=
  C4_amended [(1, "old")] [(1, "new"), (2, "b")] (by decide) (by decide)

/-- C3.  When the budget-vs-actual daily sync fetches zero rows for the
date window, the invocation only logs the source-side count check, deletes
the empty staging table and returns: the target is exactly unchanged (so in
particular its row count is), and conversely any row removed from the
target by an invocation implies at least one staged row was fetched. -/
theorem C3_zero_rows_guard :
    (∀ (target fetched : List BVARow) (today : String), fetched = [] →
      bvaSyncDailyIncremental target fetched today = (target, true)) ∧
    (∀ (target fetched : List BVARow) (today : String) (r : BVARow),
      r ∈ target → r ∉ (bvaSyncDailyIncremental target fetched today).1 →
        fetched ≠ []) := by
  have hmain : ∀ (target fetched : List BVARow) (today : String), fetched = [] →
      bvaSyncDailyIncremental target fetched today = (target, true) := by
    intro target fetched today hf
    subst hf
    rfl
  refine ⟨hmain, ?_⟩
  intro target fetched today r hr hnot hf
  rw [hmain target fetched today hf] at hnot
  exact hnot hr

/-- C3, witness: a one-row target survives a zero-row invocation. -/
theorem C3_witness :
    bvaSyncDailyIncremental [⟨some "w", some "u", some "n", some "2025-01-02", "p"⟩]
        [] "2025-01-02" =
      ([⟨some "w", some "u", some "n", some "2025-01-02", "p"⟩], true) :=
  C3_zero_rows_guard.1 [⟨some "w", some "u", some "n", some "2025-01-02", "p"⟩] []
    "2025-01-02" rfl

/-- C7, counterexample.  The budget-vs-actual normalization maps a null
`REPORTING_DATE` to the current sync date, not to null. -/
theorem C7_counterexample :
    bvaNormalizeRow "2025-06-01" [("REPORTING_DATE", SFValue.null)] =
        [("REPORTING_DATE", BQValue.str "2025-06-01")] ∧
      BQValue.str "2025-06-01" ≠ BQValue.null := by
  refine ⟨by decide, by decide⟩

/-- C7, amended.  The unified pipeline's `convert_row_to_dict` and the
`work_item_details` normalization pass null through for every column; the
budget-vs-actual normalization passes null through for every column other
than `REPORTING_DATE`, and maps a null `REPORTING_DATE` to the current sync
date — so the pipelines do not behave identically on null values. -/
theorem C7_amended :
    (∀ (row : List (String × SFValue)) (c : String), (c, SFValue.null) ∈ row →
      (c, BQValue.null) ∈ convertRowToDict row) ∧
    (∀ (row : List (String × SFValue)) (c : String), (c, SFValue.null) ∈ row →
      (c, BQValue.null) ∈ widNormalizeRow row) ∧
    (∀ (d : String) (row : List (String × SFValue)) (c : String),
      c ≠ "REPORTING_DATE" → (c, SFValue.null) ∈ row →
        (c, BQValue.null) ∈ bvaNormalizeRow d row) ∧
    (∀ (d : String) (row : List (String × SFValue)),
      ("REPORTING_DATE", SFValue.null) ∈ row →
        ("REPORTING_DATE", BQValue.str d) ∈ bvaNormalizeRow d row) := by
  refine ⟨?_, ?_, ?_, ?_⟩
  · intro row c hmem
    exact List.mem_map.mpr ⟨(c, SFValue.null), hmem, rfl⟩
  · intro row c hmem
    exact List.mem_map.mpr ⟨(c, SFValue.null), hmem, rfl⟩
  · intro d row c hc hmem
    refine List.mem_map.mpr ⟨(c, SFValue.null), hmem, ?_⟩
    simp [convertValueBVA, hc]
  · intro d row hmem
    exact List.mem_map.mpr ⟨("REPORTING_DATE", SFValue.null), hmem, by
      simp [convertValueBVA]⟩

/-- C7, witness at one-column rows for each conjunct. -/
theorem C7_witness :
    ("USER_ID", BQValue.null) ∈ convertRowToDict [("USER_ID", SFValue.null)] ∧
    ("USER_ID", BQValue.null) ∈ widNormalizeRow [("USER_ID", SFValue.null)] ∧
    ("USER_ID", BQValue.null) ∈ bvaNormalizeRow "2025-06-01" [("USER_ID", SFValue.null)] ∧
    ("REPORTING_DATE", BQValue.str "2025-06-01") ∈
      bvaNormalizeRow "2025-06-01" [("REPORTING_DATE", SFValue.null)] :=
  ⟨C7_amended.1 [("USER_ID", SFValue.null)] "USER_ID" (by decide),
   C7_amended.2.1 [("USER_ID", SFValue.null)] "USER_ID" (by decide),
   C7_amended.2.2.1 "2025-06-01" [("USER_ID", SFValue.null)] "USER_ID" (by decide) (by decide),
   C7_amended.2.2.2 "2025-06-01" [("REPORTING_DATE", SFValue.null)] (by decide)⟩

/-- C8.  When the pool is empty and `active_connections` has reached
`max_connections`, `get_connection` does not block or fail: it takes the
exhausted branch and opens a brand-new source-database connection anyway,
leaving the counters unchanged — so the number of concurrently open
connections exceeds the cap, and every further acquisition from that state
opens yet another one. -/
theorem C8_pool_exhausted_creates (s : PoolState) (hpool : s.pool = 0)
    (hfull : s.maxConnections ≤ s.active) :
    getConnectionStep s = (AcquireAction.createUntracked, s) ∧
      createsNewConnection (getConnectionStep s).1 = true := by
  have h1 : ¬ 0 < s.pool := by omega
  have h2 : ¬ s.active < s.maxConnections := by omega
  constructor
  · rw [getConnectionStep, if_neg h1, if_neg h2]
  · rw [getConnectionStep, if_neg h1, if_neg h2]
    rfl

/-- C8, witness at the configured cap (`max_connections = 3`) with three
active connections and an empty pool. -/
theorem C8_witness :
    getConnectionStep ⟨0, 3, 3⟩ = (AcquireAction.createUntracked, ⟨0, 3, 3⟩) ∧
      createsNewConnection (getConnectionStep ⟨0, 3, 3⟩).1 = true :=
  C8_pool_exhausted_creates ⟨0, 3, 3⟩ (by decide) (by decide)

/-- C9.  The smart delete removes exactly the target rows dated today whose
coalesced `(WORK_ITEM_ID, USER_ID, USER_NAME)` key is outside the first
1000 collected keys; consequently with 1001 collected keys a target row
carrying the 1001st key — a key that was fetched and had just been merged —
is deleted as stale; and the final target of a non-empty invocation is the
smart delete of the merged target against the collected staged keys. -/
theorem C9_smart_delete_truncation :
    (∀ (target : List BVARow) (keys : List (String × String × String))
        (today : String) (r : BVARow), keys ≠ [] →
      (r ∈ bvaSmartDelete target keys today ↔
        r ∈ target ∧ ¬(r.reportingDate = some today ∧ bvaKey r ∉ keys.take 1000))) ∧
    (∀ (target : List BVARow) (ks : List (String × String × String))
        (k : String × String × String) (today : String) (r : BVARow),
      ks.length = 1000 → r ∈ target → r.reportingDate = some today →
        bvaKey r = k → k ∉ ks →
          r ∉ bvaSmartDelete target (ks ++ [k]) today) ∧
    (∀ (target fetched : List BVARow) (today : String) (merged : List BVARow),
      fetched.length ≠ 0 →
        bqMergeOn bvaMatch target (fetched.map (bvaNormalizeDateRow today)) =
          some merged →
        (bvaSyncDailyIncremental target fetched today).1 =
          bvaSmartDelete merged
            (distinct ((fetched.map (bvaNormalizeDateRow today)).map bvaKey)) today) := by
  have hchar : ∀ (target : List BVARow) (keys : List (String × String × String))
      (today : String) (r : BVARow), keys ≠ [] →
      (r ∈ bvaSmartDelete target keys today ↔
        r ∈ target ∧ ¬(r.reportingDate = some today ∧ bvaKey r ∉ keys.take 1000)) := by
    intro target keys today r hk
    rw [bvaSmartDelete, if_neg (by simpa [List.length_eq_zero] using hk)]
    rw [List.mem_filter]
    simp only [Bool.not_eq_eq_eq_not, Bool.not_true, decide_eq_false_iff_not]
  refine ⟨hchar, ?_, ?_⟩
  · intro target ks k today r hlen hr hdate hkey hknot
    have hkeys : (ks ++ [k]) ≠ [] := by simp
    rw [hchar target (ks ++ [k]) today r hkeys]
    rintro ⟨-, habs⟩
    apply habs
    refine ⟨hdate, ?_⟩
    rw [List.take_left' hlen, hkey]
    exact hknot
  · intro target fetched today merged hf hm
    have hrw : bvaSyncDailyIncremental target fetched today =
        (bvaSmartDelete merged
          (distinct ((fetched.map (bvaNormalizeDateRow today)).map bvaKey)) today,
         true) := by
      rw [bvaSyncDailyIncremental, if_neg hf]
      simp only [hm]
    rw [hrw]

/-- C9, witness: the characterization at a singleton key list; the
truncation consequence at 1000 identical collected keys followed by a
1001st distinct key carried by a just-merged target row; and the delete
wiring at a one-row fetch. -/
theorem C9_witness :
    ((⟨some "w", some "u", some "n", some "2025-01-02", "p"⟩ : BVARow) ∈
        bvaSmartDelete [⟨some "w", some "u", some "n", some "2025-01-02", "p"⟩]
          [("w", "u", "n")] "2025-01-02" ↔
      (⟨some "w", some "u", some "n", some "2025-01-02", "p"⟩ : BVARow) ∈
          [(⟨some "w", some "u", some "n", some "2025-01-02", "p"⟩ : BVARow)] ∧
        ¬((some "2025-01-02" : Option String) = some "2025-01-02" ∧
          bvaKey ⟨some "w", some "u", some "n", some "2025-01-02", "p"⟩ ∉
            ([("w", "u", "n")] : List (String × String × String)).take 1000)) ∧
    (⟨some "b", some "", some "", some "2025-01-02", "p"⟩ : BVARow) ∉
      bvaSmartDelete [⟨some "b", some "", some "", some "2025-01-02", "p"⟩]
        (List.replicate 1000 ("a", "", "") ++ [("b", "", "")]) "2025-01-02" ∧
    (bvaSyncDailyIncremental []
        [⟨some "w", some "u", some "n", some "2025-01-02", "p"⟩] "2025-01-02").1 =
      bvaSmartDelete [⟨some "w", some "u", some "n", some "2025-01-02", "p"⟩]
        (distinct (([⟨some "w", some "u", some "n", some "2025-01-02", "p"⟩].map
            (bvaNormalizeDateRow "2025-01-02")).map bvaKey)) "2025-01-02" := by
  have hlen : (List.replicate 1000 (("a", "", "") : String × String × String)).length
      = 1000 := by
    rw [List.length_replicate]
  have hknot : (("b", "", "") : String × String × String) ∉
      List.replicate 1000 (("a", "", "") : String × String × String) := by
    intro h
    have := (List.mem_replicate.mp h).2
    exact absurd this (by decide)
  refine ⟨C9_smart_delete_truncation.1 _ [("w", "u", "n")] "2025-01-02" _ (by decide),
    C9_smart_delete_truncation.2.1 _ (List.replicate 1000 ("a", "", "")) ("b", "", "")
      "2025-01-02" _ hlen (List.mem_singleton.mpr rfl) rfl rfl hknot, ?_⟩
  exact C9_smart_delete_truncation.2.2 []
    [⟨some "w", some "u", some "n", some "2025-01-02", "p"⟩] "2025-01-02"
    [⟨some "w", some "u", some "n", some "2025-01-02", "p"⟩]
    (by decide) (by decide)

/-- C10.  With an empty monitored table, `MAX(REPORTING_DATE)` is NULL, so
`days_behind or 0` coalesces to 0; for every configured table 0 exceeds
neither threshold, the table is classified OK, and the OK branch of the
monitoring loop neither triggers a fallback sync nor sends an alert. -/
theorem C10_empty_table_ok :
    ∀ cfg ∈ monitoringConfigTables, ∀ today : Int,
      checkDataFreshness today [] cfg.thresholds = FreshnessStatus.OK ∧
        monitorAction (checkDataFreshness today [] cfg.thresholds) =
          MonitorAction.nothing := by
  intro cfg hcfg today
  fin_cases hcfg <;> exact ⟨rfl, rfl⟩

/-- C10, witness at the first configured table. -/
theorem C10_witness :
    checkDataFreshness 20000 []
        (⟨"WORK_ITEM_BUDGET_TIME_TRACKING_VIEW_V4", ⟨1, 3⟩,
          "sync-full-work-item-details-to-bq"⟩ : MonitoredTable).thresholds =
        FreshnessStatus.OK ∧
      monitorAction (checkDataFreshness 20000 []
        (⟨"WORK_ITEM_BUDGET_TIME_TRACKING_VIEW_V4", ⟨1, 3⟩,
          "sync-full-work-item-details-to-bq"⟩ : MonitoredTable).thresholds) =
        MonitorAction.nothing :=
  C10_empty_table_ok _ (by simp [monitoringConfigTables]) 20000

end SnowflakeBQ
